import Mathlib

/-!
# Verification of the `context-store` state container

A shallow embedding, in Lean 4, of the core of the `context-store` /
`react-constore` repository: the JavaScript value model needed by the deep
equality comparators, the comparator variants themselves
(`src/utils.ts`, `utils/comparison.ts`, and the unnamed refined variant),
the notifier (`src/store/notifier.ts`), the store core
(`src/store/core.ts`), and the listener registry of the monolithic
variant (`src/store.ts`).  Theorems at the end settle the specification
claims about these components.

Modelling conventions:
* JavaScript values are represented by the inductive `Value`.  Plain
  objects carry their own enumerable string-keyed properties in insertion
  order; `Date` carries its epoch value; functions are represented by an
  opaque identity.
* JavaScript `===` is reference equality on objects.  `strictEq` below is
  structural equality, which is a sound stand-in inside the comparators:
  it may return `true` earlier than `===` would, but only on inputs where
  the recursive structural comparison would also return `true`, so every
  comparator computes the same answer under either reading.
* The non-enumerable `length` own property of arrays is not modelled
  (`jsHasOwn` sees enumerable properties only); no verified claim
  exercises it.
* Listeners are opaque identifiers (`Nat`); an invocation of a listener is
  recorded as an `Event` carrying the arguments it was invoked with, so
  that "is invoked exactly once with these arguments" is expressible.
-/

/-- A JavaScript value, as discriminated by the comparators: `null`,
`undefined`, booleans, numbers (modelled as `Int`; the verified claims use
only integer arithmetic), strings, functions (by identity), `Date`
(by epoch value), arrays, and plain objects (own enumerable properties in
insertion order). -/
inductive Value where
  | vNull
  | vUndef
  | vBool (b : Bool)
  | vNum (n : Int)
  | vStr (s : String)
  | vFun (id : Nat)
  | vDate (time : Int)
  | vArr (elems : List Value)
  | vObj (fields : List (String × Value))

/-- `typeof v` as a string, per JavaScript (`typeof null` is `"object"`). -/
def jsTypeof : Value → String
  | .vNull => "object"
  | .vUndef => "undefined"
  | .vBool _ => "boolean"
  | .vNum _ => "number"
  | .vStr _ => "string"
  | .vFun _ => "function"
  | .vDate _ => "object"
  | .vArr _ => "object"
  | .vObj _ => "object"

/-- `v == null` (loose equality with null): true exactly for `null` and
`undefined`. -/
def isNullish : Value → Bool
  | .vNull => true
  | .vUndef => true
  | _ => false

/-- JavaScript truthiness of a value (`NaN` is not modelled). -/
def jsTruthy : Value → Bool
  | .vNull => false
  | .vUndef => false
  | .vBool b => b
  | .vNum n => n != 0
  | .vStr s => s != ""
  | _ => true

mutual
/-- Structural stand-in for JavaScript `===` (see the module comment). -/
def strictEq : Value → Value → Bool
  | .vNull, .vNull => true
  | .vUndef, .vUndef => true
  | .vBool a, .vBool b => a == b
  | .vNum a, .vNum b => a == b
  | .vStr a, .vStr b => a == b
  | .vFun i, .vFun j => i == j
  | .vDate t, .vDate u => t == u
  | .vArr as, .vArr bs => strictEqList as bs
  | .vObj fs, .vObj gs => strictEqFields fs gs
  | _, _ => false
termination_by structural a => a

def strictEqList : List Value → List Value → Bool
  | [], [] => true
  | a :: as, b :: bs => strictEq a b && strictEqList as bs
  | _, _ => false
termination_by structural l _ => l

def strictEqFields : List (String × Value) → List (String × Value) → Bool
  | [], [] => true
  | (k, v) :: fs, (k2, w) :: gs => k == k2 && strictEq v w && strictEqFields fs gs
  | _, _ => false
termination_by structural l _ => l
end

/-- The own enumerable string-keyed properties of a value, in order:
array elements under their index strings, object fields as given, nothing
for every other value (a `Date` has no own enumerable properties). -/
def jsEntries : Value → List (String × Value)
  | .vObj fs => fs
  | .vArr es => es.enum.map fun p => (toString p.1, p.2)
  | _ => []

/-- `Object.keys v`. -/
def jsKeys (v : Value) : List String := (jsEntries v).map Prod.fst

/-- First binding of `k` in an association list (JavaScript property
lookup; object keys are unique in practice). -/
def assocFind {α : Type} : List (String × α) → String → Option α
  | [], _ => none
  | p :: rest, k => if p.1 == k then some p.2 else assocFind rest k

/-- `Object.prototype.hasOwnProperty.call v k`, restricted to enumerable
properties (see the module comment on the array `length` property). -/
def jsHasOwn (v : Value) (k : String) : Bool := (assocFind (jsEntries v) k).isSome

/-- `v[k]`: property access, `undefined` when absent. -/
def jsGet (v : Value) (k : String) : Value := (assocFind (jsEntries v) k).getD Value.vUndef

namespace SrcUtils

/-!
Embedding of `isEqual` from `src/utils.ts` ("Optimized deep equality
check"), the comparator imported by the monolithic store `src/store.ts`.
Control flow of the source: `===` short-circuit; nullish check;
`typeof` mismatch; both-arrays branch; both-Dates branch; then a generic
object branch (key count plus key-wise recursion) for every remaining
value of `typeof` `"object"` — note that an array, or a `Date`, compared
against a non-array object falls through into that object branch.
-/

mutual
/-- `isEqual` of `src/utils.ts`. -/
def isEqual (a b : Value) : Bool :=
  if strictEq a b then true
  else if isNullish a || isNullish b then strictEq a b
  else if jsTypeof a != jsTypeof b then false
  else
    match a, b with
    | .vArr as, .vArr bs => as.length == bs.length && everyPair as bs
    | .vDate t, .vDate u => t == u
    | .vArr as, b => ((jsKeys (.vArr as)).length == (jsKeys b).length) && arrFields as 0 b
    | .vDate _, b => (0 == (jsKeys b).length : Bool)
    | .vObj fs, b => (fs.length == (jsKeys b).length) && objFields fs b
    | _, _ => false
termination_by structural a

/-- `a.every((v, i) => isEqual(v, b[i]))`; out-of-range access yields
`undefined` (only reached under the length guard). -/
def everyPair : List Value → List Value → Bool
  | [], _ => true
  | v :: vs, [] => isEqual v Value.vUndef && everyPair vs []
  | v :: vs, w :: ws => isEqual v w && everyPair vs ws
termination_by structural l _ => l

/-- The object branch when the left side is an array: its keys are the
index strings of its elements. -/
def arrFields : List Value → Nat → Value → Bool
  | [], _, _ => true
  | v :: vs, i, b =>
    (jsHasOwn b (toString i) && isEqual v (jsGet b (toString i))) && arrFields vs (i + 1) b
termination_by structural l _ _ => l

/-- `keysA.every(k => hasOwnProperty(b, k) && isEqual(a[k], b[k]))`. -/
def objFields : List (String × Value) → Value → Bool
  | [], _ => true
  | (k, v) :: rest, b => (jsHasOwn b k && isEqual v (jsGet b k)) && objFields rest b
termination_by structural l _ => l
end

end SrcUtils

namespace Part002

/-!
Embedding of the refined `isEqual` variant (unnamed source file
`part_002`): same dispatch as `src/utils.ts` but with one-sided guards —
an array never equals a non-array, a `Date` never equals a non-`Date` —
so the generic object branch is reached only with plain objects on both
sides.
-/

mutual
/-- `isEqual` of the refined variant (`part_002`). -/
def isEqual (a b : Value) : Bool :=
  if strictEq a b then true
  else if isNullish a || isNullish b then strictEq a b
  else if jsTypeof a != jsTypeof b then false
  else
    match a, b with
    | .vArr as, .vArr bs => as.length == bs.length && everyPair as bs
    | .vArr _, _ => false
    | _, .vArr _ => false
    | .vDate t, .vDate u => t == u
    | .vDate _, _ => false
    | _, .vDate _ => false
    | .vObj fs, .vObj gs => (fs.length == gs.length) && objFields fs (.vObj gs)
    | _, _ => false
termination_by structural a

/-- Element-wise loop of the array branch. -/
def everyPair : List Value → List Value → Bool
  | [], _ => true
  | v :: vs, [] => isEqual v Value.vUndef && everyPair vs []
  | v :: vs, w :: ws => isEqual v w && everyPair vs ws
termination_by structural l _ => l

/-- Key-wise loop of the object branch. -/
def objFields : List (String × Value) → Value → Bool
  | [], _ => true
  | (k, v) :: rest, b => (jsHasOwn b k && isEqual v (jsGet b k)) && objFields rest b
termination_by structural l _ => l
end

end Part002

namespace UtilsComparison

/-!
Embedding of `isEqual` from `utils/comparison.ts`, the comparator imported
by the store core `src/store/core.ts`: `===` short-circuit; everything
that is not a non-null object on both sides is unequal; otherwise key
count plus key-wise recursion (`keysB.includes(k)` membership).  Arrays
and `Date`s receive no special treatment in this variant: they are
compared by their own enumerable properties.
-/

/-- `typeof v === "object" && v !== null`. -/
def isObjectLike (v : Value) : Bool := jsTypeof v == "object" && !(strictEq v .vNull)

mutual
/-- `isEqual` of `utils/comparison.ts`. -/
def isEqual (a b : Value) : Bool :=
  if strictEq a b then true
  else if !(isObjectLike a) || !(isObjectLike b) then false
  else
    match a, b with
    | .vObj fs, b => (fs.length == (jsKeys b).length) && objFields fs b
    | .vArr as, b => ((jsKeys (.vArr as)).length == (jsKeys b).length) && arrFields as 0 b
    | .vDate _, b => (0 == (jsKeys b).length : Bool)
    | _, _ => false
termination_by structural a

/-- Key-wise loop, left side an array (keys are index strings). -/
def arrFields : List Value → Nat → Value → Bool
  | [], _, _ => true
  | v :: vs, i, b =>
    (jsHasOwn b (toString i) && isEqual v (jsGet b (toString i))) && arrFields vs (i + 1) b
termination_by structural l _ _ => l

/-- `keysA.every(k => keysB.includes(k) && isEqual(a[k], b[k]))`. -/
def objFields : List (String × Value) → Value → Bool
  | [], _ => true
  | (k, v) :: rest, b => (jsHasOwn b k && isEqual v (jsGet b k)) && objFields rest b
termination_by structural l _ => l
end

end UtilsComparison

/-! ## Store state -/

/-- The held state of a store: the own enumerable properties of the state
object, in insertion order. -/
abbrev StateV := List (String × Value)

/-- Property read `state[key]`, yielding `undefined` when absent. -/
def stateGet (x : StateV) (k : String) : Value := (assocFind x k).getD Value.vUndef

/-- Spread-plus-override, a fresh object with every property of the old
state: the updated key keeps its position with the new value if already
present and is appended otherwise (JavaScript property-order
semantics). -/
def objSet (st : StateV) (k : String) (v : Value) : StateV :=
  if (assocFind st k).isSome then
    st.map fun p => if p.1 == k then (p.1, v) else p
  else st ++ [(k, v)]

namespace Core

/-!
Embedding of `src/store/notifier.ts` and `src/store/core.ts` (the variant
cited by the claims).  Listener sets are lists without duplicates
(JavaScript `Set` insertion order); the listener registry keyed by state
key is an association list (JavaScript object property order).  Listener
invocations are returned as a list of `Event`s in invocation order.
-/

/-- The per-key listener registry (`listenersMap` in the source): keys in
property order, each with its listener set in insertion order. -/
abbrev Registry := List (String × List Nat)

/-- One listener invocation, with the arguments it received. -/
inductive Event where
  | keyCall (key : String) (lid : Nat) (value : Value) (st : StateV)
  | globalCall (lid : Nat) (st : StateV)

/-- The mutable state owned by `createNotifier`. -/
structure NotifierState where
  listenersMap : Registry
  globalListeners : List Nat

/-- `createNotifier(state)`: seeds `listenersMap` with an empty listener
set for every key of the initial state; no global listeners. -/
def createNotifier (st : StateV) : NotifierState :=
  { listenersMap := st.map fun p => (p.1, ([] : List Nat))
    globalListeners := [] }

/-- `Set.prototype.add`: append if not already present. -/
def setAdd (l : Nat) (ls : List Nat) : List Nat :=
  if l ∈ ls then ls else ls ++ [l]

/-- `if (!listenersMap[key]) listenersMap[key] = new Set()`. -/
def ensureKey (m : Registry) (k : String) : Registry :=
  if (assocFind m k).isSome then m else m ++ [(k, [])]

/-- The `changedKeys.forEach` loop of `notify`: for each key, lazily
create its set, then invoke every listener in it with
`(currentState[key], currentState)`.  Returns the updated map and the
invocation events in order. -/
def notifyKeys (st : StateV) : List String → Registry → Registry × List Event
  | [], m => (m, [])
  | k :: rest, m =>
    let m1 := ensureKey m k
    let evts := ((assocFind m1 k).getD []).map fun l => Event.keyCall k l (stateGet st k) st
    let r := notifyKeys st rest m1
    (r.1, evts ++ r.2)

/-- `notify(changedKeys, currentState)`: key listeners first, then —
only if `changedKeys` is non-empty — every global listener with
`(currentState)`. -/
def notify (changedKeys : List String) (currentState : StateV)
    (ns : NotifierState) : NotifierState × List Event :=
  let r := notifyKeys currentState changedKeys ns.listenersMap
  let gevts :=
    if changedKeys.length > 0 then
      ns.globalListeners.map fun l => Event.globalCall l currentState
    else []
  ({ listenersMap := r.1, globalListeners := ns.globalListeners }, r.2 ++ gevts)

/-- `addKeyListener(key, listener)`: lazily create the key set, add the
listener. -/
def addKeyListener (k : String) (l : Nat) (ns : NotifierState) : NotifierState :=
  let m1 := ensureKey ns.listenersMap k
  { ns with listenersMap := m1.map fun p => if p.1 == k then (p.1, setAdd l p.2) else p }

/-- The unsubscribe closure returned by `addKeyListener`:
`listenersMap[key]?.delete(listener)`, then delete the key if its set
became empty. -/
def removeKeyListener (k : String) (l : Nat) (ns : NotifierState) : NotifierState :=
  match assocFind ns.listenersMap k with
  | none => ns
  | some ls =>
    let ls2 := ls.erase l
    if ls2.length == 0 then
      { ns with listenersMap := ns.listenersMap.filter fun p => p.1 != k }
    else
      { ns with listenersMap := ns.listenersMap.map fun p => if p.1 == k then (p.1, ls2) else p }

/-- `addGlobalListener(listener)`. -/
def addGlobalListener (l : Nat) (ns : NotifierState) : NotifierState :=
  { ns with globalListeners := setAdd l ns.globalListeners }

/-- The unsubscribe closure returned by `addGlobalListener`. -/
def removeGlobalListener (l : Nat) (ns : NotifierState) : NotifierState :=
  { ns with globalListeners := ns.globalListeners.erase l }

/-- `clearAllListeners()`: every key set is cleared and every key deleted,
and the global set is cleared. -/
def clearAllListeners (_ns : NotifierState) : NotifierState :=
  { listenersMap := [], globalListeners := [] }

/-- An unsubscribe handle: the data closed over by the closure returned
from `addKeyListener` / `addGlobalListener`. -/
inductive Unsub where
  | key (k : String) (lid : Nat)
  | global (lid : Nat)

/-- Invoking an unsubscribe handle. -/
def runUnsub : Unsub → NotifierState → NotifierState
  | .key k l, ns => removeKeyListener k l ns
  | .global l, ns => removeGlobalListener l ns

/-- A store instance: the held state plus the notifier it owns. -/
structure Store where
  state : StateV
  notifier : NotifierState

/-- `createStoreCore(initialState)` (the initializer-function form is
evaluated before this point, exactly once; no claim depends on it). -/
def createStoreCore (initialState : StateV) : Store :=
  { state := initialState, notifier := createNotifier initialState }

/-- Truthiness of the optional `key` argument of `getState`: `undefined`
and the empty string are falsy. -/
def keyTruthy : Option String → Bool
  | none => false
  | some s => s != ""

/-- `getState(key?)`: `if (key) return state[key]; return state`. -/
def getState (store : Store) (key : Option String) : Value :=
  if keyTruthy key then stateGet store.state ((key.getD "")) else .vObj store.state

/-- The argument of `setState`: a direct value (possibly invalid) or an
updater function. -/
inductive SetStateArg where
  | direct (v : Value)
  | updater (f : StateV → Value)

/-- Everything observable about one `setState` call: the store afterwards,
the listener invocations it performed, whether the null/undefined warning
fired, whether a `StateUpdateError` was thrown, and the list of states the
updater function was applied to. -/
structure SetStateResult where
  store : Store
  events : List Event
  warned : Bool
  errored : Bool
  updaterCalls : List StateV

/-- The `Object.keys(nextPartialState).forEach` loop: for each key of the
resolved update, keep the held state if the comparator finds the values
equal, otherwise replace the state object and record the key as changed.
The comparator is `isEqual` of `utils/comparison.ts` (the import of
`src/store/core.ts`). -/
def applyUpdates : List (String × Value) → StateV → StateV × List String
  | [], st => (st, [])
  | (k, v) :: rest, st =>
    if UtilsComparison.isEqual (stateGet st k) v then applyUpdates rest st
    else
      let st1 := objSet st k v
      let r := applyUpdates rest st1
      (r.1, k :: r.2)

/-- The tail of `setState` after the updater (if any) has been resolved:
validate the resolved update, diff key by key, and notify only when at
least one key changed. -/
def setStateResolved (store : Store) (resolved : Value) (calls : List StateV) :
    SetStateResult :=
  if !(jsTruthy resolved) || jsTypeof resolved != "object" then
    { store := store, events := [], warned := false, errored := true, updaterCalls := calls }
  else
    let r := applyUpdates (jsEntries resolved) store.state
    if r.2.length > 0 then
      let n := notify r.2 r.1 store.notifier
      { store := { state := r.1, notifier := n.1 }, events := n.2
        warned := false, errored := false, updaterCalls := calls }
    else
      { store := { state := r.1, notifier := store.notifier }, events := []
        warned := false, errored := false, updaterCalls := calls }

/-- `setState(partial)` of `src/store/core.ts`: warn and return on
`null`/`undefined`; invoke an updater function once with the current
state; then validate, diff and notify. -/
def setState (store : Store) (arg : SetStateArg) : SetStateResult :=
  match arg with
  | .direct v =>
    if strictEq v Value.vNull || strictEq v Value.vUndef then
      { store := store, events := [], warned := true, errored := false, updaterCalls := [] }
    else setStateResolved store v []
  | .updater f => setStateResolved store (f store.state) [store.state]

/-- A valid `subscribe` call: the global overload or the key overload
(an invalid call shape throws a `SubscriptionError` before touching the
registry; no claim depends on it). -/
inductive SubscribeArg where
  | globalFn (lid : Nat)
  | keyFn (key : String) (lid : Nat)

/-- `subscribe`: delegates to the notifier and returns the unsubscribe
handle. -/
def subscribe (store : Store) : SubscribeArg → Store × Unsub
  | .globalFn l => ({ store with notifier := addGlobalListener l store.notifier }, .global l)
  | .keyFn k l => ({ store with notifier := addKeyListener k l store.notifier }, .key k l)

/-- `destroy()`: clears all listeners via the notifier — and does nothing
else (the held state is kept and no destroyed flag is set). -/
def destroy (store : Store) : Store :=
  { store with notifier := clearAllListeners store.notifier }

/-- Well-formedness of a notifier: listener sets hold no duplicates
(they are JavaScript `Set`s). -/
def NotifierWF (ns : NotifierState) : Prop :=
  (∀ p ∈ ns.listenersMap, (p.2 : List Nat).Nodup) ∧ ns.globalListeners.Nodup

end Core

namespace Mono

/-!
Embedding of the key-listener registry of the monolithic variant
`src/store.ts`: `keyListeners` is a `Map` that starts empty, is lazily
populated by the key overload of `subscribe`, and is pruned by the
returned unsubscribe closure; `notify` only reads it.
-/

/-- The key overload of `subscribe`: create the set on first use, then
add the listener. -/
def subscribeKey (k : String) (l : Nat) (m : Core.Registry) : Core.Registry :=
  let m1 := if (assocFind m k).isSome then m else m ++ [(k, [])]
  m1.map fun p => if p.1 == k then (p.1, Core.setAdd l p.2) else p

/-- The unsubscribe closure: if the key has a set, delete the listener
from it and delete the key when the set became empty. -/
def unsubscribeKey (k : String) (l : Nat) (m : Core.Registry) : Core.Registry :=
  match assocFind m k with
  | none => m
  | some ls =>
    let ls2 := ls.erase l
    if ls2.length == 0 then m.filter (fun p => p.1 != k)
    else m.map fun p => if p.1 == k then (p.1, ls2) else p

/-- The registry states reachable in `src/store.ts`: from the empty map
by subscribe and unsubscribe steps (`notify` never writes the map, global
subscriptions do not touch it, and this variant has no
`clearAllListeners`). -/
inductive ReachableReg : Core.Registry → Prop
  | init : ReachableReg []
  | sub (k : String) (l : Nat) {m : Core.Registry} :
      ReachableReg m → ReachableReg (subscribeKey k l m)
  | unsub (k : String) (l : Nat) {m : Core.Registry} :
      ReachableReg m → ReachableReg (unsubscribeKey k l m)

end Mono

/-! ## Observation predicates and concrete instances used by the theorems -/

/-- The event is an invocation of key-listener `l` registered on `k`. -/
def isKeyCallFor (k : String) (l : Nat) : Core.Event → Bool
  | .keyCall k2 l2 _ _ => k2 == k && l2 == l
  | _ => false

/-- The event is an invocation of global listener `l`. -/
def isGlobalCallFor (l : Nat) : Core.Event → Bool
  | .globalCall l2 _ => l2 == l
  | _ => false

/-- The event is a key-listener invocation. -/
def isKeyEvt : Core.Event → Bool
  | .keyCall _ _ _ _ => true
  | _ => false

/-- The event is a global-listener invocation. -/
def isGlobalEvt : Core.Event → Bool
  | .globalCall _ _ => true
  | _ => false

/-- Numeric coercion used by the concrete updater below. -/
def numOf : Value → Int
  | .vNum n => n
  | _ => 0

/-- The updater `s => ({count: s.count + 1})` on a numeric `count`. -/
def incCount : StateV → Value :=
  fun st => Value.vObj [("count", Value.vNum (numOf (stateGet st "count") + 1))]

/-- A store created with `{count: 0}`. -/
def store0 : Core.Store := Core.createStoreCore [("count", Value.vNum 0)]

/-- A notifier with listener `1` on `"a"`, listener `2` on `"b"` and
global listener `9`. -/
def notifier0 : Core.NotifierState :=
  { listenersMap := [("a", [1]), ("b", [2])], globalListeners := [9] }

/-- A concrete state with keys `"a"` and `"b"`. -/
def stateAB : StateV := [("a", Value.vNum 5), ("b", Value.vNum 6)]

/-- A store whose state has a property under the empty-string key. -/
def storeEmptyKey : Core.Store :=
  { state := [("", Value.vStr "x"), ("a", Value.vNum 1)]
    notifier := Core.createNotifier [] }

/-! ## Association-list lemmas -/

theorem assocFind_append_left {α : Type} {m : List (String × α)} {k : String} {x : α}
    (m2 : List (String × α)) (h : assocFind m k = some x) :
    assocFind (m ++ m2) k = some x := by
  induction m with
  | nil => simp [assocFind] at h
  | cons p rest ih =>
    simp only [assocFind] at h
    simp only [List.cons_append, assocFind]
    cases hk : (p.1 == k) with
    | true => simp only [hk, if_true] at h ⊢; exact h
    | false => simp only [hk, if_false] at h ⊢; exact ih h

theorem assocFind_append_right {α : Type} {m : List (String × α)} {k : String}
    (m2 : List (String × α)) (h : assocFind m k = none) :
    assocFind (m ++ m2) k = assocFind m2 k := by
  induction m with
  | nil => rfl
  | cons p rest ih =>
    simp only [assocFind] at h
    simp only [List.cons_append, assocFind]
    cases hk : (p.1 == k) with
    | true => simp only [hk, if_true] at h; exact absurd h (by simp)
    | false => simp only [hk, if_false] at h ⊢; exact ih h

theorem assocFind_mem {α : Type} {m : List (String × α)} {k : String} {x : α}
    (h : assocFind m k = some x) : (k, x) ∈ m := by
  induction m with
  | nil => simp [assocFind] at h
  | cons p rest ih =>
    simp only [assocFind] at h
    cases hk : (p.1 == k) with
    | true =>
      simp only [hk, if_true, Option.some.injEq] at h
      obtain ⟨p1, p2⟩ := p
      simp only [beq_iff_eq] at hk
      subst hk; subst h
      exact List.mem_cons_self _ _
    | false =>
      simp only [hk, if_false] at h
      exact List.mem_cons_of_mem _ (ih h)

theorem assocFind_ensureKey {m : Core.Registry} {k : String} {ls : List Nat}
    (k2 : String) (h : assocFind m k = some ls) :
    assocFind (Core.ensureKey m k2) k = some ls := by
  unfold Core.ensureKey
  split
  · exact h
  · exact assocFind_append_left _ h

theorem assocFind_filter_self {m : Core.Registry} {k : String} :
    assocFind (m.filter fun p => p.1 != k) k = none := by
  induction m with
  | nil => rfl
  | cons p rest ih =>
    simp only [List.filter]
    cases hk : (p.1 == k) with
    | true =>
      have : (p.1 != k) = false := by simp [bne, hk]
      rw [this]
      exact ih
    | false =>
      have : (p.1 != k) = true := by simp [bne, hk]
      rw [this]
      simp only [assocFind, hk, if_false]
      exact ih

theorem assocFind_map_replace {m : Core.Registry} {k : String} {ls : List Nat}
    (x : List Nat) (h : assocFind m k = some ls) :
    assocFind (m.map fun p => if p.1 == k then (p.1, x) else p) k = some x := by
  induction m with
  | nil => simp [assocFind] at h
  | cons p rest ih =>
    simp only [assocFind] at h
    simp only [List.map_cons]
    cases hk : (p.1 == k) with
    | true => simp [assocFind, hk]
    | false =>
      simp only [hk, if_false] at h
      simp only [hk, if_false, assocFind]
      rw [if_neg (by simp [hk])]
      exact ih h

/-! ## Event-filter lemmas -/

theorem filter_keyCalls_not_mem {k : String} {l : Nat} {v : Value} {st : StateV}
    {ls : List Nat} (h : l ∉ ls) :
    (ls.map fun x => Core.Event.keyCall k x v st).filter (isKeyCallFor k l) = [] := by
  induction ls with
  | nil => rfl
  | cons x xs ih =>
    have hx : (x == l) = false := by
      simp only [beq_eq_false_iff_ne, ne_eq]
      intro hxl; exact h (hxl ▸ List.mem_cons_self _ _)
    simp only [List.map_cons, List.filter, isKeyCallFor, hx, Bool.and_false]
    exact ih fun hm => h (List.mem_cons_of_mem _ hm)

theorem filter_keyCalls_mem {k : String} {l : Nat} {v : Value} {st : StateV}
    {ls : List Nat} (hnd : ls.Nodup) (h : l ∈ ls) :
    (ls.map fun x => Core.Event.keyCall k x v st).filter (isKeyCallFor k l)
      = [Core.Event.keyCall k l v st] := by
  induction ls with
  | nil => simp at h
  | cons x xs ih =>
    rcases List.mem_cons.1 h with hx | hx
    · subst hx
      have hnotin : l ∉ xs := (List.nodup_cons.1 hnd).1
      simp only [List.map_cons, List.filter, isKeyCallFor, beq_self_eq_true, Bool.and_true,
        Bool.and_self]
      rw [filter_keyCalls_not_mem hnotin]
    · have hx2 : (x == l) = false := by
        simp only [beq_eq_false_iff_ne, ne_eq]
        intro hxl
        exact (List.nodup_cons.1 hnd).1 (hxl ▸ hx)
      simp only [List.map_cons, List.filter, isKeyCallFor, hx2, Bool.and_false]
      exact ih (List.nodup_cons.1 hnd).2 hx

theorem filter_keyCalls_other_key {k k2 : String} {l : Nat} {v : Value} {st : StateV}
    (ls : List Nat) (h : (k2 == k) = false) :
    (ls.map fun x => Core.Event.keyCall k2 x v st).filter (isKeyCallFor k l) = [] := by
  induction ls with
  | nil => rfl
  | cons x xs ih =>
    simp only [List.map_cons, List.filter, isKeyCallFor, h, Bool.false_and]
    exact ih

theorem filter_globalCalls_of_keyCalls {l : Nat} {k2 : String} {v : Value} {st : StateV}
    (ls : List Nat) :
    (ls.map fun x => Core.Event.keyCall k2 x v st).filter (isGlobalCallFor l) = [] := by
  induction ls with
  | nil => rfl
  | cons x xs ih => simp only [List.map_cons, List.filter, isGlobalCallFor]; exact ih

theorem filter_keyEvt_of_keyCalls {k2 : String} {v : Value} {st : StateV} (ls : List Nat) :
    (ls.map fun x => Core.Event.keyCall k2 x v st).filter isKeyEvt
      = ls.map fun x => Core.Event.keyCall k2 x v st := by
  induction ls with
  | nil => rfl
  | cons x xs ih => simp only [List.map_cons, List.filter, isKeyEvt, ih]

theorem filter_globalEvt_of_keyCalls {k2 : String} {v : Value} {st : StateV} (ls : List Nat) :
    (ls.map fun x => Core.Event.keyCall k2 x v st).filter isGlobalEvt = [] := by
  induction ls with
  | nil => rfl
  | cons x xs ih => simp only [List.map_cons, List.filter, isGlobalEvt]; exact ih

theorem filter_globalCalls_not_mem {l : Nat} {st : StateV} {ls : List Nat} (h : l ∉ ls) :
    (ls.map fun x => Core.Event.globalCall x st).filter (isGlobalCallFor l) = [] := by
  induction ls with
  | nil => rfl
  | cons x xs ih =>
    have hx : (x == l) = false := by
      simp only [beq_eq_false_iff_ne, ne_eq]
      intro hxl; exact h (hxl ▸ List.mem_cons_self _ _)
    simp only [List.map_cons, List.filter, isGlobalCallFor, hx]
    exact ih fun hm => h (List.mem_cons_of_mem _ hm)

theorem filter_globalCalls_mem {l : Nat} {st : StateV} {ls : List Nat}
    (hnd : ls.Nodup) (h : l ∈ ls) :
    (ls.map fun x => Core.Event.globalCall x st).filter (isGlobalCallFor l)
      = [Core.Event.globalCall l st] := by
  induction ls with
  | nil => simp at h
  | cons x xs ih =>
    rcases List.mem_cons.1 h with hx | hx
    · subst hx
      have hnotin : l ∉ xs := (List.nodup_cons.1 hnd).1
      simp only [List.map_cons, List.filter, isGlobalCallFor, beq_self_eq_true]
      rw [filter_globalCalls_not_mem hnotin]
    · have hx2 : (x == l) = false := by
        simp only [beq_eq_false_iff_ne, ne_eq]
        intro hxl
        exact (List.nodup_cons.1 hnd).1 (hxl ▸ hx)
      simp only [List.map_cons, List.filter, isGlobalCallFor, hx2]
      exact ih (List.nodup_cons.1 hnd).2 hx

theorem filter_keyCalls_of_globalCalls {k : String} {l : Nat} {st : StateV} (ls : List Nat) :
    (ls.map fun x => Core.Event.globalCall x st).filter (isKeyCallFor k l) = [] := by
  induction ls with
  | nil => rfl
  | cons x xs ih => simp only [List.map_cons, List.filter, isKeyCallFor]; exact ih

theorem filter_keyEvt_of_globalCalls {st : StateV} (ls : List Nat) :
    (ls.map fun x => Core.Event.globalCall x st).filter isKeyEvt = [] := by
  induction ls with
  | nil => rfl
  | cons x xs ih => simp only [List.map_cons, List.filter, isKeyEvt]; exact ih

theorem filter_globalEvt_of_globalCalls {st : StateV} (ls : List Nat) :
    (ls.map fun x => Core.Event.globalCall x st).filter isGlobalEvt
      = ls.map fun x => Core.Event.globalCall x st := by
  induction ls with
  | nil => rfl
  | cons x xs ih => simp only [List.map_cons, List.filter, isGlobalEvt, ih]

/-! ## Notifier lemmas -/

theorem notifyKeys_filter_not_mem {st : StateV} {ks : List String} {k : String} {l : Nat}
    (m : Core.Registry) (h : k ∉ ks) :
    ((Core.notifyKeys st ks m).2.filter (isKeyCallFor k l)) = [] := by
  induction ks generalizing m with
  | nil => rfl
  | cons k0 rest ih =>
    have hk0 : (k0 == k) = false := by
      simp only [beq_eq_false_iff_ne, ne_eq]
      intro he; exact h (he ▸ List.mem_cons_self _ _)
    simp only [Core.notifyKeys, List.filter_append]
    rw [filter_keyCalls_other_key _ hk0, ih _ fun hm => h (List.mem_cons_of_mem _ hm)]
    rfl

theorem notifyKeys_filter_mem {st : StateV} {ks : List String} {k : String} {l : Nat}
    {ls : List Nat} (m : Core.Registry) (hnd : ks.Nodup) (hmem : k ∈ ks)
    (hfind : assocFind m k = some ls) (hls : ls.Nodup) (hl : l ∈ ls) :
    ((Core.notifyKeys st ks m).2.filter (isKeyCallFor k l))
      = [Core.Event.keyCall k l (stateGet st k) st] := by
  induction ks generalizing m with
  | nil => simp at hmem
  | cons k0 rest ih =>
    simp only [Core.notifyKeys, List.filter_append]
    rcases List.mem_cons.1 hmem with hk | hk
    · subst hk
      rw [assocFind_ensureKey k hfind]
      simp only [Option.getD_some]
      rw [filter_keyCalls_mem hls hl,
        notifyKeys_filter_not_mem _ (List.nodup_cons.1 hnd).1]
      rfl
    · have hk0 : (k0 == k) = false := by
        simp only [beq_eq_false_iff_ne, ne_eq]
        intro he; exact (List.nodup_cons.1 hnd).1 (he ▸ hk)
      rw [filter_keyCalls_other_key _ hk0]
      rw [ih _ (List.nodup_cons.1 hnd).2 hk (assocFind_ensureKey k0 hfind)]
      rfl

theorem notifyKeys_no_global {st : StateV} {ks : List String} {l : Nat}
    (m : Core.Registry) :
    ((Core.notifyKeys st ks m).2.filter (isGlobalCallFor l)) = [] := by
  induction ks generalizing m with
  | nil => rfl
  | cons k0 rest ih =>
    simp only [Core.notifyKeys, List.filter_append]
    rw [filter_globalCalls_of_keyCalls, ih]
    rfl

theorem notifyKeys_filter_keyEvt {st : StateV} {ks : List String} (m : Core.Registry) :
    ((Core.notifyKeys st ks m).2.filter isKeyEvt) = (Core.notifyKeys st ks m).2 := by
  induction ks generalizing m with
  | nil => rfl
  | cons k0 rest ih =>
    simp only [Core.notifyKeys, List.filter_append]
    rw [filter_keyEvt_of_keyCalls, ih]

theorem notifyKeys_filter_globalEvt {st : StateV} {ks : List String} (m : Core.Registry) :
    ((Core.notifyKeys st ks m).2.filter isGlobalEvt) = [] := by
  induction ks generalizing m with
  | nil => rfl
  | cons k0 rest ih =>
    simp only [Core.notifyKeys, List.filter_append]
    rw [filter_globalEvt_of_keyCalls, ih]
    rfl

theorem notifyKeys_empty_sets {st : StateV} {ks : List String} {m : Core.Registry}
    (h : ∀ q ∈ m, q.2 = ([] : List Nat)) :
    (Core.notifyKeys st ks m).2 = [] := by
  induction ks generalizing m with
  | nil => rfl
  | cons k0 rest ih =>
    have hens : ∀ q ∈ Core.ensureKey m k0, q.2 = ([] : List Nat) := by
      intro q hq
      unfold Core.ensureKey at hq
      split at hq
      · exact h q hq
      · rcases List.mem_append.1 hq with hq2 | hq2
        · exact h q hq2
        · simp only [List.mem_singleton] at hq2
          simp [hq2]
    have hval : ((assocFind (Core.ensureKey m k0) k0).getD []) = [] := by
      cases hfind : assocFind (Core.ensureKey m k0) k0 with
      | none => rfl
      | some ls => simpa using hens _ (assocFind_mem hfind)
    simp only [Core.notifyKeys]
    rw [hval]
    simp only [List.map_nil, List.nil_append]
    exact ih hens

/-! ## Store-core lemmas -/

theorem applyUpdates_unchanged {p : List (String × Value)} {st : StateV}
    (h : ∀ kv ∈ p, UtilsComparison.isEqual (stateGet st kv.1) kv.2 = true) :
    Core.applyUpdates p st = (st, []) := by
  induction p with
  | nil => rfl
  | cons kv rest ih =>
    obtain ⟨k, v⟩ := kv
    have h1 : UtilsComparison.isEqual (stateGet st k) v = true :=
      h (k, v) (List.mem_cons_self _ _)
    simp only [Core.applyUpdates, h1, if_true]
    exact ih fun kv2 hm => h kv2 (List.mem_cons_of_mem _ hm)

theorem setStateResolved_calls (store : Core.Store) (v : Value) (calls : List StateV) :
    (Core.setStateResolved store v calls).updaterCalls = calls := by
  unfold Core.setStateResolved
  split
  · rfl
  · dsimp only
    split <;> rfl

theorem notify_cleared_events (ks : List String) (st : StateV) :
    (Core.notify ks st { listenersMap := [], globalListeners := [] }).2 = [] := by
  unfold Core.notify
  dsimp only
  rw [notifyKeys_empty_sets (by intro q hq; simp at hq)]
  simp

theorem setStateResolved_no_listeners_events (s2 : Core.Store) (v : Value)
    (calls : List StateV)
    (h : s2.notifier = { listenersMap := [], globalListeners := [] }) :
    (Core.setStateResolved s2 v calls).events = [] := by
  unfold Core.setStateResolved
  split
  · rfl
  · dsimp only
    split
    · rw [h]
      exact notify_cleared_events _ _
    · rfl

/-! ## Claim theorems -/

/-- C1: a `setState` whose partial update is judged unchanged at every key
by the comparator the store core uses invokes no listener at all, throws
nothing, warns nothing, and leaves the held state container the very same
object. -/
theorem c1_unchanged_partial_is_fully_silent (s : Core.Store) (p : List (String × Value))
    (h : ∀ kv ∈ p, UtilsComparison.isEqual (stateGet s.state kv.1) kv.2 = true) :
    Core.setState s (.direct (.vObj p))
      = { store := s, events := [], warned := false, errored := false,
          updaterCalls := [] } := by
  have ha : Core.applyUpdates p s.state = (s.state, []) := applyUpdates_unchanged h
  show ((let r := Core.applyUpdates p s.state
         if r.2.length > 0 then
           let n := Core.notify r.2 r.1 s.notifier
           { store := { state := r.1, notifier := n.1 }, events := n.2,
             warned := false, errored := false, updaterCalls := ([] : List StateV) }
         else
           { store := { state := r.1, notifier := s.notifier }, events := [],
             warned := false, errored := false,
             updaterCalls := ([] : List StateV) }) : Core.SetStateResult)
      = { store := s, events := [], warned := false, errored := false, updaterCalls := [] }
  dsimp only
  rw [ha]
  rfl

/-- C1 witness: an unchanged `{count: 0}` update on the `{count: 0}` store
is fully silent. -/
theorem c1_unchanged_partial_is_fully_silent_witness :
    Core.setState store0 (.direct (.vObj [("count", Value.vNum 0)]))
      = { store := store0, events := [], warned := false, errored := false,
          updaterCalls := [] } :=
  c1_unchanged_partial_is_fully_silent store0 [("count", Value.vNum 0)] (by decide)

/-- C3: an updater function passed to `setState` is applied exactly once,
to the current pre-update state; two sequential `count + 1` updaters from
`{count: 0}` produce `1` then `2`, the second seeing the committed state
of the first. -/
theorem c3_updater_applied_once_sequentially :
    (∀ (s : Core.Store) (f : StateV → Value),
        (Core.setState s (.updater f)).updaterCalls = [s.state])
  ∧ (Core.setState store0 (.updater incCount)).updaterCalls = [store0.state]
  ∧ stateGet (Core.setState store0 (.updater incCount)).store.state "count" = Value.vNum 1
  ∧ (Core.setState (Core.setState store0 (.updater incCount)).store
        (.updater incCount)).updaterCalls
      = [(Core.setState store0 (.updater incCount)).store.state]
  ∧ stateGet (Core.setState (Core.setState store0 (.updater incCount)).store
        (.updater incCount)).store.state "count" = Value.vNum 2 :=
  ⟨fun s f => setStateResolved_calls s (f s.state) [s.state], rfl, rfl, rfl, rfl⟩

/-- C5: in `src/utils.ts`, `isEqual([1,2], {0:1, 1:2})` is `true` — an
array does equal a shape-compatible plain object there, because the array
guard requires both sides to be arrays and otherwise falls through to the
key-wise object branch; the refined variant (`part_002`) returns `false`
as the claim states. -/
theorem c5_array_vs_object_equality :
    SrcUtils.isEqual (Value.vArr [Value.vNum 1, Value.vNum 2])
        (Value.vObj [("0", Value.vNum 1), ("1", Value.vNum 2)]) = true
  ∧ Part002.isEqual (Value.vArr [Value.vNum 1, Value.vNum 2])
        (Value.vObj [("0", Value.vNum 1), ("1", Value.vNum 2)]) = false :=
  ⟨by decide, by decide⟩

/-- C6: in `src/utils.ts` a `Date` equals the plain object `{}` (both have
no own enumerable keys, and the `Date` guard requires both sides to be
`Date`s); in `utils/comparison.ts` two `Date`s one day apart are judged
equal (no `Date` handling at all); the refined variant (`part_002`)
behaves as the claim states. -/
theorem c6_date_equality :
    SrcUtils.isEqual (Value.vDate 0) (Value.vObj []) = true
  ∧ SrcUtils.isEqual (Value.vDate 0) (Value.vDate 0) = true
  ∧ SrcUtils.isEqual (Value.vDate 0) (Value.vDate 1) = false
  ∧ UtilsComparison.isEqual (Value.vDate 0) (Value.vDate 86400000) = true
  ∧ Part002.isEqual (Value.vDate 0) (Value.vObj []) = false
  ∧ Part002.isEqual (Value.vDate 0) (Value.vDate 0) = true
  ∧ Part002.isEqual (Value.vDate 0) (Value.vDate 1) = false :=
  ⟨by decide, by decide, by decide, by decide, by decide, by decide, by decide⟩

/-- C8: `setState(null)` and `setState(undefined)` warn and do nothing:
the store (state and listener registry) is untouched, no listener is
invoked, and nothing is thrown. -/
theorem c8_null_undefined_rejected_with_warning :
    ∀ s : Core.Store,
      Core.setState s (.direct Value.vNull)
        = { store := s, events := [], warned := true, errored := false, updaterCalls := [] }
      ∧ Core.setState s (.direct Value.vUndef)
        = { store := s, events := [], warned := true, errored := false,
            updaterCalls := [] } :=
  fun _ => ⟨rfl, rfl⟩

/-- C10: `getState` dispatches on the truthiness of its key argument, so
the falsy empty-string key returns the whole state object — even when a
property is stored under the key `""` — while a truthy key returns that
property. -/
theorem c10_empty_string_key_returns_whole_state :
    (∀ s : Core.Store, Core.getState s (some "") = Value.vObj s.state
        ∧ Core.getState s none = Value.vObj s.state)
  ∧ Core.getState storeEmptyKey (some "")
      = Value.vObj [("", Value.vStr "x"), ("a", Value.vNum 1)]
  ∧ stateGet storeEmptyKey.state "" = Value.vStr "x"
  ∧ Core.getState storeEmptyKey (some "a") = Value.vNum 1 :=
  ⟨fun _ => ⟨rfl, rfl⟩, rfl, rfl, rfl⟩

/-- C4 (amended): `destroy()` empties the key-listener map and the global
set and keeps the held state; a `setState` after `destroy()` therefore
invokes zero listeners and throws nothing — but it is not a no-op on the
held state, and a `subscribe` after `destroy()` registers a live listener
(no destroyed flag exists). -/
theorem c4_destroy_clears_listeners_only (s : Core.Store) (p : List (String × Value))
    (k : String) (l : Nat) :
    (Core.destroy s).notifier.listenersMap = []
  ∧ (Core.destroy s).notifier.globalListeners = []
  ∧ (Core.destroy s).state = s.state
  ∧ (Core.setState (Core.destroy s) (.direct (.vObj p))).events = []
  ∧ assocFind (Core.subscribe (Core.destroy s) (.keyFn k l)).1.notifier.listenersMap k
      = some [l] := by
  refine ⟨rfl, rfl, rfl, ?_, ?_⟩
  · show (Core.setStateResolved (Core.destroy s) (Value.vObj p) []).events = []
    exact setStateResolved_no_listeners_events _ _ _ rfl
  · show assocFind
        ((Core.ensureKey ([] : Core.Registry) k).map
          fun q => if q.1 == k then (q.1, Core.setAdd l q.2) else q) k = some [l]
    simp [Core.ensureKey, Core.setAdd, assocFind]

/-- C4 counterexample: on the `{count: 0}` store, after `destroy()` a
`setState({count: 1})` does change the held state (so it is not a no-op),
and a subsequent `subscribe("count", ...)` registers a listener that fires
on the next `setState` — refuting the claimed terminal `Destroyed`
behaviour at this concrete input. -/
theorem c4_destroyed_store_still_updates_and_subscribes :
    stateGet (Core.setState (Core.destroy store0)
        (.direct (.vObj [("count", Value.vNum 1)]))).store.state "count" = Value.vNum 1
  ∧ stateGet (Core.destroy store0).state "count" = Value.vNum 0
  ∧ Value.vNum 1 ≠ Value.vNum 0
  ∧ (Core.setState (Core.subscribe (Core.destroy store0) (.keyFn "count" 7)).1
        (.direct (.vObj [("count", Value.vNum 1)]))).events
      = [Core.Event.keyCall "count" 7 (Value.vNum 1) [("count", Value.vNum 1)]] := by
  refine ⟨rfl, rfl, ?_, rfl⟩
  intro h
  injection h with h2
  exact absurd h2 (by decide)

/-- C9 counterexample: the notifier keeps empty listener sets — right
after construction every initial-state key maps to an empty set, and
`notify` on an unknown key creates one as well — refuting the claimed
absent-or-non-empty invariant at these concrete inputs. -/
theorem c9_notifier_keeps_empty_sets :
    assocFind (Core.createNotifier [("count", Value.vNum 0)]).listenersMap "count" = some []
  ∧ assocFind (Core.notify ["x"] []
        { listenersMap := [], globalListeners := [] }).1.listenersMap "x" = some [] :=
  ⟨rfl, rfl⟩

/-- C9 (amended): in the monolithic variant `src/store.ts` the invariant
does hold — every registry state reachable from the empty map through
subscribe and unsubscribe steps maps each present key to a non-empty
listener set (the unsubscribe closure prunes a set it empties, and
`notify` never writes the map). -/
theorem c9_monostore_registry_pruned {m : Core.Registry} (h : Mono.ReachableReg m) :
    ∀ q ∈ m, q.2 ≠ ([] : List Nat) := by
  induction h with
  | init => intro q hq; simp at hq
  | sub k l hm ih =>
    intro q hq
    unfold Mono.subscribeKey at hq
    obtain ⟨p2, hp2, hq2⟩ := List.mem_map.1 hq
    by_cases hk : (p2.1 == k) = true
    · rw [if_pos hk] at hq2
      subst hq2
      show Core.setAdd l p2.2 ≠ []
      unfold Core.setAdd
      split
      · exact List.ne_nil_of_mem (by assumption)
      · simp
    · rw [if_neg hk] at hq2
      subst hq2
      split at hp2
      · exact ih p2 hp2
      · rcases List.mem_append.1 hp2 with hin | hin
        · exact ih p2 hin
        · simp only [List.mem_singleton] at hin
          subst hin
          simp at hk
  | unsub k l hm ih =>
    intro q hq
    unfold Mono.unsubscribeKey at hq
    split at hq
    · exact ih q hq
    · rename_i ls hfind
      dsimp only at hq
      split at hq
      · exact ih q (List.mem_filter.1 hq).1
      · rename_i hlen
        obtain ⟨p2, hp2, hq2⟩ := List.mem_map.1 hq
        by_cases hk : (p2.1 == k) = true
        · rw [if_pos hk] at hq2
          subst hq2
          show ls.erase l ≠ []
          intro hnil
          rw [hnil] at hlen
          simp at hlen
        · rw [if_neg hk] at hq2
          subst hq2
          exact ih p2 hp2

/-- C9 witness for the amended invariant: applied to the reachable
registry obtained by one subscription of listener `1` on `"a"`. -/
theorem c9_monostore_registry_pruned_witness : ([1] : List Nat) ≠ [] :=
  c9_monostore_registry_pruned
    (Mono.ReachableReg.sub "a" 1 Mono.ReachableReg.init) ("a", [1]) (by decide)

/-- C7: unsubscribe handles are idempotent — running one twice leaves the
listener registry exactly as running it once does (for key handles and
global handles alike, given that listener sets hold no duplicates, as
JavaScript `Set`s do), and running one after `destroy()` has cleared
everything is a safe no-op. -/
theorem c7_unsubscribe_idempotent (u : Core.Unsub) (ns : Core.NotifierState)
    (hwf : Core.NotifierWF ns) :
    Core.runUnsub u (Core.runUnsub u ns) = Core.runUnsub u ns
  ∧ Core.runUnsub u (Core.clearAllListeners ns) = Core.clearAllListeners ns := by
  constructor
  · cases u with
    | global l =>
      show Core.removeGlobalListener l (Core.removeGlobalListener l ns)
          = Core.removeGlobalListener l ns
      unfold Core.removeGlobalListener
      have : (ns.globalListeners.erase l).erase l = ns.globalListeners.erase l :=
        List.erase_of_not_mem fun hm => (hwf.2.mem_erase_iff.1 hm).1 rfl
      simp [this]
    | key k l =>
      show Core.removeKeyListener k l (Core.removeKeyListener k l ns)
          = Core.removeKeyListener k l ns
      cases hfind : assocFind ns.listenersMap k with
      | none =>
        have hsame : Core.removeKeyListener k l ns = ns := by
          unfold Core.removeKeyListener
          rw [hfind]
        rw [hsame, hsame]
      | some ls =>
        have hnodup : ls.Nodup := hwf.1 (k, ls) (assocFind_mem hfind)
        have hnotmem : l ∉ ls.erase l := fun hm => (hnodup.mem_erase_iff.1 hm).1 rfl
        have herase2 : (ls.erase l).erase l = ls.erase l := List.erase_of_not_mem hnotmem
        by_cases hlen : ((ls.erase l).length == 0) = true
        · have hinner : Core.removeKeyListener k l ns
              = { ns with listenersMap := ns.listenersMap.filter fun p => p.1 != k } := by
            unfold Core.removeKeyListener
            rw [hfind]
            dsimp only
            rw [if_pos hlen]
          rw [hinner]
          unfold Core.removeKeyListener
          dsimp only
          rw [assocFind_filter_self]
        · have hinner : Core.removeKeyListener k l ns
              = { ns with listenersMap :=
                    ns.listenersMap.map fun p => if p.1 == k then (p.1, ls.erase l) else p } := by
            unfold Core.removeKeyListener
            rw [hfind]
            dsimp only
            rw [if_neg hlen]
          rw [hinner]
          unfold Core.removeKeyListener
          dsimp only
          rw [assocFind_map_replace (ls.erase l) hfind]
          dsimp only
          rw [herase2, if_neg hlen, List.map_map]
          have hff : ((fun p : String × List Nat =>
                if (p.1 == k) = true then (p.1, ls.erase l) else p)
              ∘ fun p => if (p.1 == k) = true then (p.1, ls.erase l) else p)
              = fun p => if (p.1 == k) = true then (p.1, ls.erase l) else p := by
            funext p
            by_cases hk : (p.1 == k) = true
            · simp [Function.comp, hk]
            · simp [Function.comp, hk]
          rw [hff]
  · cases u with
    | global l =>
      show Core.removeGlobalListener l (Core.clearAllListeners ns)
          = Core.clearAllListeners ns
      rfl
    | key k l =>
      show Core.removeKeyListener k l (Core.clearAllListeners ns)
          = Core.clearAllListeners ns
      rfl

/-- C7 witness: the key-handle of listener `1` on `"a"` is idempotent on
the demo notifier. -/
theorem c7_unsubscribe_idempotent_witness :
    Core.runUnsub (Core.Unsub.key "a" 1) (Core.runUnsub (Core.Unsub.key "a" 1) notifier0)
      = Core.runUnsub (Core.Unsub.key "a" 1) notifier0 :=
  (c7_unsubscribe_idempotent (Core.Unsub.key "a" 1) notifier0
    ⟨by decide, by decide⟩).1

/-- C2: `notify(changedKeys, state)` invokes each key-listener registered
on a key of `changedKeys` exactly once, with `(state[key], state)`; it
never invokes a listener filtered on a key outside `changedKeys`; every
global listener is invoked exactly once with `(state)`, after all
key-listener invocations; and with empty `changedKeys` nothing at all is
invoked.  (Hypotheses: `changedKeys` has no duplicates — `setState` passes
distinct object keys — and listener sets hold no duplicates, being
JavaScript `Set`s.) -/
theorem c2_notify_scoped_delivery (ns : Core.NotifierState) (ks : List String)
    (st : StateV) (hnd : ks.Nodup) (hwf : Core.NotifierWF ns) :
    (ks = [] → (Core.notify ks st ns).2 = [])
  ∧ (∀ k l, k ∉ ks → ((Core.notify ks st ns).2.filter (isKeyCallFor k l)) = [])
  ∧ (∀ k l ls, k ∈ ks → assocFind ns.listenersMap k = some ls → l ∈ ls →
      ((Core.notify ks st ns).2.filter (isKeyCallFor k l))
        = [Core.Event.keyCall k l (stateGet st k) st])
  ∧ (∀ g, ks ≠ [] → g ∈ ns.globalListeners →
      ((Core.notify ks st ns).2.filter (isGlobalCallFor g))
        = [Core.Event.globalCall g st])
  ∧ ((Core.notify ks st ns).2
      = (Core.notify ks st ns).2.filter isKeyEvt
        ++ (Core.notify ks st ns).2.filter isGlobalEvt) := by
  have hev : (Core.notify ks st ns).2
      = (Core.notifyKeys st ks ns.listenersMap).2
        ++ (if ks.length > 0 then
              ns.globalListeners.map fun l => Core.Event.globalCall l st
            else []) := rfl
  refine ⟨?_, ?_, ?_, ?_, ?_⟩
  · intro h
    subst h
    rfl
  · intro k l hk
    rw [hev, List.filter_append, notifyKeys_filter_not_mem _ hk, List.nil_append]
    split
    · exact filter_keyCalls_of_globalCalls _
    · rfl
  · intro k l ls hk hfind hl
    have hnodup : ls.Nodup := hwf.1 (k, ls) (assocFind_mem hfind)
    rw [hev, List.filter_append, notifyKeys_filter_mem _ hnd hk hfind hnodup hl]
    have hrest : ((if ks.length > 0 then
          ns.globalListeners.map fun l2 => Core.Event.globalCall l2 st
        else []).filter (isKeyCallFor k l)) = [] := by
      split
      · exact filter_keyCalls_of_globalCalls _
      · rfl
    rw [hrest]
    rfl
  · intro g hne hg
    rw [hev, List.filter_append, notifyKeys_no_global,
      if_pos (List.length_pos.2 hne), filter_globalCalls_mem hwf.2 hg, List.nil_append]
  · rw [hev, List.filter_append, List.filter_append, notifyKeys_filter_keyEvt,
      notifyKeys_filter_globalEvt, List.nil_append]
    have h1 : ((if ks.length > 0 then
          ns.globalListeners.map fun l => Core.Event.globalCall l st
        else []).filter isKeyEvt) = [] := by
      split
      · exact filter_keyEvt_of_globalCalls _
      · rfl
    have h2 : ((if ks.length > 0 then
          ns.globalListeners.map fun l => Core.Event.globalCall l st
        else []).filter isGlobalEvt)
        = (if ks.length > 0 then
            ns.globalListeners.map fun l => Core.Event.globalCall l st
          else []) := by
      split
      · exact filter_globalEvt_of_globalCalls _
      · rfl
    rw [h1, h2, List.append_nil]

/-- C2 witness: on the demo notifier (listener `1` on `"a"`, listener `2`
on `"b"`, global `9`), `notify(["a"], stateAB)` delivers exactly one call
to listener `1` with the value of `"a"`. -/
theorem c2_notify_scoped_delivery_witness :
    ((Core.notify ["a"] stateAB notifier0).2.filter (isKeyCallFor "a" 1))
      = [Core.Event.keyCall "a" 1 (stateGet stateAB "a") stateAB] :=
  (c2_notify_scoped_delivery notifier0 ["a"] stateAB (by decide)
    ⟨by decide, by decide⟩).2.2.1 "a" 1 [1] (by decide) rfl (by decide)
